import Mathlib

/-!
Shallow embedding of the PDF-to-EPUB closed-loop conversion pipeline
(`functions/main.py`) and verification of its structuring, validation,
adjustment and iteration-control logic.

Python strings are modelled as `List Char`, floats as exact rationals `ℚ`,
Python ints as `ℤ` (or `ℕ` where the source only ever holds non-negative
counts), and dicts with a fixed key set as structures.  Keys that are only
present on some code paths are modelled as `Option` fields.
-/

namespace PdfEpub

/-- Whitespace recognised by Python `str.split` / `str.strip` and the regex
class used by the source, restricted to the ASCII range exercised here. -/
def isSpace (c : Char) : Bool :=
  c = ' ' || c = '\t' || c = '\n' || c = '\r' || c = '\x0b' || c = '\x0c'

/-- Word counting state machine: `inWord` records whether the previous
character was part of a word.  `countWords l` equals Python
`len(l.split())`, the number of maximal non-whitespace runs. -/
def countWordsAux : List Char → Bool → ℕ
  | [], _ => 0
  | c :: cs, inWord =>
    if isSpace c then countWordsAux cs false
    else (if inWord then 0 else 1) + countWordsAux cs true

/-- Number of whitespace-separated words, Python `len(text.split())`. -/
def countWords (l : List Char) : ℕ := countWordsAux l false

/-- Python `text.strip()`: drop leading and trailing whitespace. -/
def stripText (l : List Char) : List Char :=
  ((l.dropWhile isSpace).reverse.dropWhile isSpace).reverse

/-- Case folding for the characters appearing in the chapter keyword
patterns.  `Char.toLower` handles ASCII; the two accented capitals that can
occur in the Spanish keywords are folded explicitly. -/
def lowerChar (c : Char) : Char :=
  if c = 'Í' then 'í' else if c = 'Ó' then 'ó' else c.toLower

/-- Boolean test that `pre` is a prefix of `l`. -/
def startsWithSeq : List Char → List Char → Bool
  | [], _ => true
  | _ :: _, [] => false
  | c :: cs, d :: ds => c = d && startsWithSeq cs ds

/-- The alternatives of the chapter keyword regex
`^(cap[íi]tulo|chapter|parte|part|secci[oó]n|section)\s` in lowered form. -/
def keywordList : List (List Char) :=
  ["capítulo", "capitulo", "chapter", "parte", "part",
   "sección", "seccion", "section"].map String.data

/-- Case-insensitive match of the keyword regex: some alternative is a
prefix of the lowered text and is followed by a whitespace character.
Alternation with backtracking is equivalent to this any-of test. -/
def startsWithKeyword (text : List Char) : Bool :=
  let lower := text.map lowerChar
  keywordList.any (fun w =>
    startsWithSeq w lower &&
      (match lower.drop w.length with
       | c :: _ => isSpace c
       | [] => false))

/-- Match of `^\d+[\.\)\-\s]`.  Because no digit belongs to the trailing
character class, greedy matching with backtracking is equivalent to taking
the maximal digit prefix and testing the next character. -/
def startsWithDecimal (text : List Char) : Bool :=
  let ds := text.takeWhile Char.isDigit
  decide (ds ≠ []) &&
    (match text.drop ds.length with
     | c :: _ => c = '.' || c = ')' || c = '-' || isSpace c
     | [] => false)

/-- Characters of the Roman numeral class `[IVXLCDM]`. -/
def isRomanChar (c : Char) : Bool :=
  c = 'I' || c = 'V' || c = 'X' || c = 'L' || c = 'C' || c = 'D' || c = 'M'

/-- Match of `^[IVXLCDM]+[\.\)\-\s]`; the same maximal-prefix argument as
for the decimal pattern applies since the classes are disjoint. -/
def startsWithRoman (text : List Char) : Bool :=
  let rs := text.takeWhile isRomanChar
  decide (rs ≠ []) &&
    (match text.drop rs.length with
     | c :: _ => c = '.' || c = ')' || c = '-' || isSpace c
     | [] => false)

/-- Python `text.split("\n\n")`: cut at each non-overlapping occurrence of
two consecutive newlines, scanning left to right. -/
def splitParas : List Char → List (List Char) →  List Char → List (List Char)
  | [], done, acc => (done.reverse ++ [acc.reverse])
  | '\n' :: '\n' :: rest, done, acc => splitParas rest (acc.reverse :: done) []
  | c :: rest, done, acc => splitParas rest done (c :: acc)

/-- Paragraph split of OCR text on blank lines, `ocr_text.split("\n\n")`. -/
def splitOnBlank (l : List Char) : List (List Char) := splitParas l [] []

/-- Python `str.replace(c, rep)` for a single-character pattern. -/
def replaceChar (c : Char) (rep : List Char) : List Char → List Char
  | [] => []
  | x :: xs => (if x = c then rep else [x]) ++ replaceChar c rep xs

/-- Source `_escape_html`: sequentially replace the four special characters,
ampersand first. -/
def _escape_html (text : List Char) : List Char :=
  replaceChar '\"' "&quot;".data
    (replaceChar '>' "&gt;".data
      (replaceChar '<' "&lt;".data
        (replaceChar '&' "&amp;".data text)))

/-- Per-character escape table; `_escape_html` is proved below to coincide
with mapping this table over the input. -/
def escChar (c : Char) : List Char :=
  if c = '&' then "&amp;".data
  else if c = '<' then "&lt;".data
  else if c = '>' then "&gt;".data
  else if c = '\"' then "&quot;".data
  else [c]

/-- Scanner checking that every ampersand in a character list begins one of
the four entity escapes produced by `_escape_html`. -/
def ampOk : List Char → Bool
  | [] => true
  | c :: rest =>
    if c = '&' then
      (startsWithSeq "amp;".data rest || startsWithSeq "lt;".data rest ||
        startsWithSeq "gt;".data rest || startsWithSeq "quot;".data rest) && ampOk rest
    else ampOk rest

/-- Text span block extracted by the analyzer: stripped text, rounded font
size, boldness, raw style flag mask and bounding box. -/
structure Block where
  text : List Char
  size : ℚ
  bold : Bool
  flags : ℤ
  bbox : ℚ × ℚ × ℚ × ℚ
  deriving DecidableEq

/-- Embedded image resource: payload bytes, format extension, source page
and index on that page. -/
structure Image where
  data : List ℕ
  ext : List Char
  page : ℕ
  index : ℕ
  deriving DecidableEq

/-- Per-page record produced by `analyze_pdf`. -/
structure PageData where
  page_num : ℕ
  blocks : List Block
  word_count : ℕ
  is_scanned : Bool
  images : List Image
  deriving DecidableEq

/-- Outline entry of `doc.get_toc()`: nesting level, title and 1-indexed
page number (which external documents may supply out of range). -/
structure TocEntry where
  level : ℤ
  title : List Char
  page_num : ℤ
  deriving DecidableEq

/-- Document-level analysis returned by `analyze_pdf`. -/
structure Analysis where
  pages : List PageData
  body_font_size : ℚ
  toc : List TocEntry
  images : List Image
  scanned_pages : List ℕ
  total_words : ℕ
  total_pages : ℕ
  deriving DecidableEq

/-- Heuristic parameter dictionary threaded through the closed loop; the
orchestrator always populates all three keys. -/
structure Params where
  heading_threshold : ℚ
  chunk_size : ℤ
  min_chapter_words : ℤ
  deriving DecidableEq

/-- Transient heading candidate of the font-heuristic tier. -/
structure Heading where
  title : List Char
  page : ℕ
  size : ℚ
  deriving DecidableEq

/-- Chapter skeleton before rendering: title and page indices. -/
structure ChapterSkel where
  title : List Char
  pages : List ℕ
  deriving DecidableEq

/-- Fully populated chapter after `_build_chapter_content`. -/
structure Chapter where
  title : List Char
  pages : List ℕ
  content_html : List Char
  word_count : ℕ
  images : List Image
  deriving DecidableEq

/-- Python `list(range(a, b))` over naturals. -/
def natRange (a b : ℕ) : List ℕ := (List.range (b - a)).map (fun k => a + k)

/-- Python `list(range(a, b))` with integer bounds, used where the source
clamps the lower bound to be non-negative (`max(0, start)`). -/
def pyRangeNat (a b : ℤ) : List ℕ :=
  (List.range (b - a).toNat).map (fun k => a.toNat + k)

/-- Python `range(start, stop, step)` for a positive step; a non-positive
step is modelled as empty (the orchestrator keeps `chunk_size ≥ 15`, so the
branch is unreachable in the pipeline). -/
def rangeStep (start stop step : ℤ) : List ℤ :=
  if 0 < step then
    (List.range (((stop - start).toNat + step.toNat - 1) / step.toNat)).map
      (fun k : ℕ => start + (k : ℤ) * step)
  else []

/-- Strategy 1 boundary extraction: keep outline entries with nesting level
at most 2 and convert their page numbers to 0-indexed starts.  The source
does not sort these boundaries. -/
def tocBoundaries (toc : List TocEntry) : List (List Char × ℤ) :=
  toc.filterMap (fun e =>
    if e.level ≤ 2 then some (e.title, e.page_num - 1) else none)

/-- End page of the current strategy 1 span: the next boundary start, or
the document end for the last boundary. -/
def tocEnd (n : ℤ) : List (List Char × ℤ) → ℤ
  | [] => n
  | b2 :: _ => b2.2

/-- Strategy 1 span construction: each boundary spans from its (clamped)
start page up to the next boundary start, the last one up to `n`; empty
spans are dropped.  Mirrors the `enumerate` loop of the source, which reads
each boundary together with its successor. -/
def tocSpans (n : ℤ) : List (List Char × ℤ) → List ChapterSkel
  | [] => []
  | b :: rest =>
    (if pyRangeNat (max 0 b.2) (min (tocEnd n rest) n) = [] then []
     else [ChapterSkel.mk b.1 (pyRangeNat (max 0 b.2) (min (tocEnd n rest) n))]) ++
      tocSpans n rest

/-- Front-matter synthesis shared by strategies 1 and 2: if the first
chapter does not start at page 0, prepend a synthetic chapter titled
Portada covering the initial pages. -/
def addFrontMatter : List ChapterSkel → List ChapterSkel
  | [] => []
  | c :: rest =>
    match c.pages with
    | [] => c :: rest
    | p :: _ =>
      if 0 < p then
        if natRange 0 p = [] then c :: rest
        else ChapterSkel.mk "Portada".data (natRange 0 p) :: c :: rest
      else c :: rest

/-- Strategy 2 per-block candidate test (source lines 244-263).  The final
guard repeats the size test of the outer condition as the second disjunct,
so the chapter-likeness result cannot reject a block. -/
def headingFromBlock (body_size heading_min_size : ℚ) (page_num : ℕ)
    (block : Block) : Option Heading :=
  if heading_min_size ≤ block.size ∧ block.bold = true ∧
      countWords block.text ≤ 12 ∧ 2 < block.text.length then
    let text := stripText block.text
    let is_chapter_like : Bool :=
      startsWithKeyword text || startsWithDecimal text || startsWithRoman text ||
        decide (body_size * 1.5 ≤ block.size)
    if is_chapter_like = true ∨ heading_min_size ≤ block.size then
      some (Heading.mk text page_num block.size)
    else none
  else none

/-- Strategy 2 candidate scan: skip scanned pages, collect the qualifying
blocks of every other page in order. -/
def detectedHeadings (analysis : Analysis) (params : Params) : List Heading :=
  let body_size := analysis.body_font_size
  let heading_min_size := body_size * params.heading_threshold
  analysis.pages.flatMap (fun pd =>
    if pd.is_scanned then []
    else pd.blocks.filterMap (headingFromBlock body_size heading_min_size pd.page_num))

/-- Lookup in the `seen_pages` association list, Python `page in seen_pages`
and `seen_pages[page]`. -/
def seenLookup (p : ℕ) : List (ℕ × Heading) → Option Heading
  | [] => none
  | e :: rest => if e.1 = p then some e.2 else seenLookup p rest

/-- One step of the deduplication loop: `seen_pages[h.page] = h` when the
page is new or the candidate is strictly larger. -/
def updSeen (seen : List (ℕ × Heading)) (h : Heading) : List (ℕ × Heading) :=
  match seenLookup h.page seen with
  | some _ =>
    seen.map (fun e => if e.1 = h.page ∧ e.2.size < h.size then (e.1, h) else e)
  | none => seen ++ [(h.page, h)]

/-- Per-page deduplication keeping the largest candidate, as an insertion
ordered association list mirroring the Python dict. -/
def dedupHeadings (hs : List Heading) : List (ℕ × Heading) :=
  hs.foldl updSeen []

/-- Ordering of heading candidates by page, the key of Python `sorted`. -/
def headingLE (a b : Heading) : Prop := a.page ≤ b.page

instance : DecidableRel headingLE := fun a b => Nat.decLe a.page b.page

instance : IsTotal Heading headingLE := ⟨fun a b => Nat.le_total a.page b.page⟩

instance : IsTrans Heading headingLE := ⟨fun _ _ _ h1 h2 => Nat.le_trans h1 h2⟩

/-- Python `sorted(seen_pages.values(), key=lambda x: x["page"])`.  The
deduplicated pages are pairwise distinct, so any correct sort by page,
here insertion sort, computes the same list as the stable library sort. -/
def sortedHeadings (hs : List Heading) : List Heading :=
  List.insertionSort headingLE ((dedupHeadings hs).map (fun e => e.2))

/-- End page of the current strategy 2 span: the next candidate page, or
the document end for the last candidate. -/
def headingEnd (n : ℕ) : List Heading → ℕ
  | [] => n
  | h2 :: _ => h2.page

/-- Strategy 2 span construction: from each sorted candidate page to the
next one, the last chapter running to the end of the document; empty
spans are dropped. -/
def headingSpans (n : ℕ) : List Heading → List ChapterSkel
  | [] => []
  | h :: rest =>
    (if natRange h.page (headingEnd n rest) = [] then []
     else [ChapterSkel.mk h.title (natRange h.page (headingEnd n rest))]) ++
      headingSpans n rest

/-- Strategy 1 of `structure_chapters`; `none` means the strategy does not
return and control falls through.  The source enters the branch whenever
the outline has at least two entries of any level, and returns whenever at
least one qualifying boundary produced a non-empty span. -/
def tier1Skeleton (analysis : Analysis) : Option (List ChapterSkel) :=
  if 2 ≤ analysis.toc.length then
    let chapter_boundaries := tocBoundaries analysis.toc
    if chapter_boundaries = [] then none
    else
      let chapters := tocSpans (analysis.pages.length : ℤ) chapter_boundaries
      if chapters = [] then none else some (addFrontMatter chapters)
  else none

/-- Strategy 2 of `structure_chapters`; the activation count is taken on
the raw candidate list, before per-page deduplication. -/
def tier2Skeleton (analysis : Analysis) (params : Params) : Option (List ChapterSkel) :=
  let detected_headings := detectedHeadings analysis params
  if 2 ≤ detected_headings.length then
    let sorted_headings := sortedHeadings detected_headings
    let chapters := headingSpans analysis.pages.length sorted_headings
    if chapters = [] then none else some (addFrontMatter chapters)
  else none

/-- Strategy 3 of `structure_chapters`: fixed tiling into consecutive
chunks of `chunk_size` pages with sequentially numbered generic titles. -/
def tier3Skeleton (analysis : Analysis) (params : Params) : List ChapterSkel :=
  let total := analysis.pages.length
  (rangeStep 0 (total : ℤ) params.chunk_size).enum.map (fun e =>
    ChapterSkel.mk ("Sección ".data ++ (Nat.repr (e.1 + 1)).data)
      (pyRangeNat e.2 (min (e.2 + params.chunk_size) (total : ℤ))))

/-- Rendering of one structured text block (source lines 335-348):
classify by size relative to the body size, escaping the text. -/
def renderBlock (body_size : ℚ) (block : Block) : List Char :=
  if body_size * 1.5 ≤ block.size then
    "<h2>".data ++ _escape_html block.text ++ "</h2>".data
  else if body_size * 1.2 ≤ block.size then
    "<h3>".data ++ _escape_html block.text ++ "</h3>".data
  else if block.bold then
    "<p><strong>".data ++ _escape_html block.text ++ "</strong></p>".data
  else
    "<p>".data ++ _escape_html block.text ++ "</p>".data

/-- Contribution of one page to a chapter: the emitted html parts, the
added word count and the collected images.  Out-of-range page numbers are
skipped (`continue`); a scanned page with an OCR entry renders the
non-empty stripped paragraphs of the OCR text, any other page renders its
structured blocks.  Images are collected in both branches. -/
def pageContribution (pages : List PageData) (ocr_results : ℕ → Option (List Char))
    (body_size : ℚ) (page_num : ℕ) : List (List Char) × ℕ × List Image :=
  match pages.get? page_num with
  | none => ([], 0, [])
  | some page_data =>
    if page_data.is_scanned = true ∧ (ocr_results page_num).isSome = true then
      let ocr_text := (ocr_results page_num).getD []
      if ocr_text = [] then ([], 0, page_data.images)
      else
        let paragraphs := splitOnBlank ocr_text
        (paragraphs.filterMap (fun q =>
            let p := stripText q
            if p = [] then none
            else some ("<p>".data ++ _escape_html p ++ "</p>".data)),
          (paragraphs.map (fun q =>
            let p := stripText q
            if p = [] then 0 else countWords p)).sum,
          page_data.images)
    else
      (page_data.blocks.map (renderBlock body_size),
        (page_data.blocks.map (fun b => countWords b.text)).sum,
        page_data.images)

/-- Source `_build_chapter_content`: populate each chapter skeleton with
its joined html, accumulated word count and flattened image list. -/
def _build_chapter_content (chapters : List ChapterSkel) (pages : List PageData)
    (ocr_results : ℕ → Option (List Char)) (analysis : Analysis) : List Chapter :=
  chapters.map (fun chapter =>
    let contribs := chapter.pages.map
      (pageContribution pages ocr_results analysis.body_font_size)
    { title := chapter.title
      pages := chapter.pages
      content_html := List.intercalate ['\n'] (contribs.flatMap (fun c => c.1))
      word_count := (contribs.map (fun c => c.2.1)).sum
      images := contribs.flatMap (fun c => c.2.2) })

/-- Source `structure_chapters`: three-tier chapter detection followed by
content building.  The `min_chapter_words` parameter is read (source line
200) but never used afterwards. -/
def structure_chapters (analysis : Analysis) (ocr_results : ℕ → Option (List Char))
    (params : Params) : List Chapter :=
  let pages := analysis.pages
  let min_chapter_words := params.min_chapter_words
  let skeleton :=
    match tier1Skeleton analysis with
    | some chs => chs
    | none =>
      match tier2Skeleton analysis params with
      | some chs => chs
      | none => tier3Skeleton analysis params
  _build_chapter_content skeleton pages ocr_results analysis

/-- The three strategies of the chapter boundary detector. -/
inductive Tier where
  | toc
  | headings
  | chunks
  deriving DecidableEq

/-- Which strategy `structure_chapters` returns from, following its
fall-through control flow. -/
def selectedTier (analysis : Analysis) (params : Params) : Tier :=
  match tier1Skeleton analysis with
  | some _ => Tier.toc
  | none =>
    match tier2Skeleton analysis params with
    | some _ => Tier.headings
    | none => Tier.chunks

/-- Well-formedness of the page list as produced by `analyze_pdf`, which
appends one record per page with `page_num` equal to its index. -/
def pagesNumbered : ℕ → List PageData → Bool
  | _, [] => true
  | i, pd :: rest => pd.page_num = i && pagesNumbered (i + 1) rest

/-- An analysis is well formed when its page records carry their indices. -/
def Analysis.wf (a : Analysis) : Prop := pagesNumbered 0 a.pages = true

/-- Validation report dict; `Option` fields model keys that only some code
paths write.  The message text of the `error` key is elided. -/
structure ValidationReport where
  passed : Bool
  error : Bool
  word_ratio : Option ℚ
  source_words : Option ℕ
  epub_words : Option ℕ
  chapters : ℕ
  images : ℕ
  empty_chapters : Option Bool
  failure_mode : Option (List Char)
  deriving DecidableEq

/-- The word-ratio computation of `validate_epub` (source lines 520-523). -/
def rawRatioOfWords (epub_word_count source_words : ℕ) : ℚ :=
  if 0 < source_words then min ((epub_word_count : ℚ) / (source_words : ℚ)) 1.0
  else if epub_word_count = 0 then 1.0 else 0.5

/-- Round half to even, the behaviour of Python `round` on the exact
rational model of the float values. -/
def roundHalfEven (q : ℚ) : ℤ :=
  let f := ⌊q⌋
  let frac := q - (f : ℚ)
  if frac < 1/2 then f
  else if 1/2 < frac then f + 1
  else if f % 2 = 0 then f else f + 1

/-- Python `round(q, 3)` on the rational model. -/
def round3 (q : ℚ) : ℚ := ((roundHalfEven (q * 1000) : ℚ)) / 1000

/-- Source `validate_epub`.  The EPUB readback (library call plus word
recount) is summarised by its result: `none` when reading raises, otherwise
the recounted word total.  On readback failure the report carries
`passed: False`, the error message, a `word_ratio` of 0 and the expected
counts, and no `failure_mode`. -/
def validate_epub (readback : Option ℕ) (source_analysis : Analysis)
    (chapter_count_expected image_count_expected : ℕ) : ValidationReport :=
  match readback with
  | none =>
    { passed := false
      error := true
      word_ratio := some 0
      source_words := none
      epub_words := none
      chapters := chapter_count_expected
      images := image_count_expected
      empty_chapters := none
      failure_mode := none }
  | some epub_word_count =>
    let source_words := source_analysis.total_words
    let word_ratio := rawRatioOfWords epub_word_count source_words
    let passed : Bool := decide (0.90 ≤ word_ratio)
    { passed := passed
      error := false
      word_ratio := some (round3 word_ratio)
      source_words := some source_words
      epub_words := some epub_word_count
      chapters := chapter_count_expected
      images := image_count_expected
      empty_chapters := some false
      failure_mode :=
        if passed then none
        else some (if word_ratio < 0.5 then "severe_word_loss".data
          else if word_ratio < 0.9 then "moderate_word_loss".data
          else "minor".data) }

/-- Source `adjust_params`: pure parameter update keyed on the report
failure mode, defaulting to minor (no change) when the key is absent. -/
def adjust_params (current_params : Params) (validation_report : ValidationReport) :
    Params :=
  let failure := validation_report.failure_mode.getD "minor".data
  if failure = "severe_word_loss".data then
    { heading_threshold := max 1.1 (current_params.heading_threshold - 0.15)
      chunk_size := min 30 (current_params.chunk_size + 10)
      min_chapter_words := max 25 (current_params.min_chapter_words - 50) }
  else if failure = "moderate_word_loss".data then
    { heading_threshold := max 1.1 (current_params.heading_threshold - 0.1)
      chunk_size := min 25 (current_params.chunk_size + 5)
      min_chapter_words := max 50 (current_params.min_chapter_words - 25) }
  else current_params

/-- Attempt budget of the closed loop. -/
def MAX_ITERATIONS : ℕ := 3

/-- The closed loop of `process_epub_conversion` (source lines 657-703),
indexed by the remaining attempt budget.  One attempt (structure, build,
validate) is summarised by the `attempt` function from the current
parameters to the resulting validation report.  Returns the reports in
order, the final `best_result` assignment (always the latest report) and
whether the loop exited through the pass break. -/
def runLoopAux (attempt : Params → ValidationReport) :
    ℕ → Params → List ValidationReport × Option ValidationReport × Bool
  | 0, _ => ([], none, false)
  | k + 1, params =>
    let report := attempt params
    if report.passed then ([report], some report, true)
    else
      let params2 := if 0 < k then adjust_params params report else params
      let res := runLoopAux attempt k params2
      (report :: res.1, some (res.2.1.getD report), res.2.2)

/-- Result of the bounded iteration loop. -/
structure LoopResult where
  reports : List ValidationReport
  best_result : Option ValidationReport
  passedFlag : Bool
  deriving DecidableEq

/-- Run the closed loop with the fixed 3-attempt budget. -/
def process_loop (attempt : Params → ValidationReport) (params0 : Params) :
    LoopResult :=
  let r := runLoopAux attempt MAX_ITERATIONS params0
  LoopResult.mk r.1 r.2.1 r.2.2

/-- Terminal states of the iteration controller. -/
inductive LoopState where
  | Passed
  | Exhausted
  deriving DecidableEq

/-- Terminal state reached by the loop. -/
def loopState (res : LoopResult) : LoopState :=
  if res.passedFlag then LoopState.Passed else LoopState.Exhausted

/-- Quality summary written to the status record on completion. -/
structure QualityReport where
  wordRatio : ℚ
  sourceWords : ℕ
  epubWords : ℕ
  chapters : ℕ
  images : ℕ
  passed : Bool
  deriving DecidableEq

/-- The final quality summary (source lines 716-727), which reads the
surfaced report fields with subscript access: a missing key raises and
aborts the completion update, modelled by `none`. -/
def finalQualityReport (best_result : Option ValidationReport) :
    Option QualityReport :=
  match best_result with
  | none => some (QualityReport.mk 0 0 0 0 0 false)
  | some b =>
    match b.word_ratio, b.source_words, b.epub_words with
    | some wr, some sw, some ew =>
      some (QualityReport.mk wr sw ew b.chapters b.images b.passed)
    | _, _, _ => none

/-- Pages with no text blocks and no images, numbered from 0. -/
def mkEmptyPages (n : ℕ) : List PageData :=
  (List.range n).map (fun i => PageData.mk i [] 0 false [])

/-- The initial parameter dictionary of the orchestrator. -/
def defaultParams : Params := Params.mk 1.3 15 100

/-- Empty OCR result map. -/
def noOcr : ℕ → Option (List Char) := fun _ => none

/-- A 10-page document whose outline entries are not sorted by page:
titles A, C, B starting on 1-indexed pages 1, 5 and 3. -/
def unsortedTocAnalysis : Analysis :=
  Analysis.mk (mkEmptyPages 10) 12
    [TocEntry.mk 1 "A".data 1, TocEntry.mk 1 "C".data 5, TocEntry.mk 1 "B".data 3]
    [] [] 0 10

/-- A 5-page document with two outline entries of which only one has
nesting level at most 2. -/
def oneQualifyingTocAnalysis : Analysis :=
  Analysis.mk (mkEmptyPages 5) 12
    [TocEntry.mk 1 "A".data 1, TocEntry.mk 3 "B".data 2]
    [] [] 0 5

/-- A bold oversized block whose text satisfies no chapter-likeness test:
no keyword, no ordinal prefix, and size below one and a half times the
body size. -/
def plainBoldBlock : Block :=
  Block.mk "xyzzy word".data 13 true 16 (0, 0, 0, 0)

/-- A 3-page document with no outline and no blocks. -/
def tinyAnalysis : Analysis :=
  Analysis.mk (mkEmptyPages 3) 12 [] [] [] 0 3

/-- An analysis whose only relevant field is a source word count of 1000. -/
def words1000Analysis : Analysis :=
  Analysis.mk [] 12 [] [] [] 1000 0

/-- A failing validation report with the higher word ratio 850/1000. -/
def attemptReportA : ValidationReport :=
  ValidationReport.mk false false (some (mkRat 17 20)) (some 1000) (some 850) 5 2
    (some false) (some "moderate_word_loss".data)

/-- A failing validation report with the lower word ratio 300/1000. -/
def attemptReportB : ValidationReport :=
  ValidationReport.mk false false (some (mkRat 3 10)) (some 1000) (some 300) 5 2
    (some false) (some "severe_word_loss".data)

/-- Attempt function whose first report scores higher than the later ones:
the initial parameters (chunk size 15) score 0.85, every adjusted
parameter set scores 0.3. -/
def decliningAttempt : Params → ValidationReport :=
  fun params => if params.chunk_size = 15 then attemptReportA else attemptReportB

/-- A passing validation report. -/
def passingReport : ValidationReport :=
  ValidationReport.mk true false (some 1) (some 1000) (some 1000) 4 1
    (some false) none

/-- Attempt function that always passes. -/
def passingAttempt : Params → ValidationReport :=
  fun _ => passingReport

/-- C10: for every analysis, OCR map and parameter values, the output of
structure_chapters is identical for any two values of the
min_chapter_words field: the parameter is read at source line 200 but has
no influence on the result. -/
theorem C10_min_chapter_words_no_influence (analysis : Analysis)
    (ocr_results : ℕ → Option (List Char)) (ht : ℚ) (cs m1 m2 : ℤ) :
    structure_chapters analysis ocr_results (Params.mk ht cs m1) =
      structure_chapters analysis ocr_results (Params.mk ht cs m2) := rfl

/-- C5: adjust_params is a pure case split on the failure mode: the
severe and moderate branches apply the documented decrements and clamps,
and every other failure mode, including an absent one, leaves the
parameters unchanged. -/
theorem C5_adjust_params_cases (p : Params) (r : ValidationReport) :
    adjust_params p r =
      (if r.failure_mode = some "severe_word_loss".data then
        Params.mk (max 1.1 (p.heading_threshold - 0.15)) (min 30 (p.chunk_size + 10))
          (max 25 (p.min_chapter_words - 50))
      else if r.failure_mode = some "moderate_word_loss".data then
        Params.mk (max 1.1 (p.heading_threshold - 0.1)) (min 25 (p.chunk_size + 5))
          (max 50 (p.min_chapter_words - 25))
      else p) := by
  unfold adjust_params
  cases h : r.failure_mode with
  | none => simp
  | some s =>
    by_cases hs : s = "severe_word_loss".data
    · subst hs
      simp
    · by_cases hm : s = "moderate_word_loss".data
      · subst hm
        simp
      · simp [hs, hm]

/-- C8 (amended): a readback failure yields a report with passed false, no
failure mode, no word counts, and the sentinel word ratio 0 (the claim
asserted the report carries no numeric ratio, but the source writes
word_ratio 0); feeding that report to adjust_params leaves the parameters
unchanged, so a readback failure never advances the search. -/
theorem C8_readback_failure_no_signal (sa : Analysis) (c i : ℕ) (p : Params) :
    (validate_epub none sa c i).passed = false ∧
    (validate_epub none sa c i).failure_mode = none ∧
    (validate_epub none sa c i).word_ratio = some 0 ∧
    (validate_epub none sa c i).source_words = none ∧
    (validate_epub none sa c i).epub_words = none ∧
    adjust_params p (validate_epub none sa c i) = p :=
  ⟨rfl, rfl, rfl, rfl, rfl, rfl⟩

/-- C8 counterexample: the claim states that a readback-failure report
carries no numeric word ratio, but on a concrete readback failure the
report carries the numeric word ratio 0. -/
theorem C8_counterexample :
    (validate_epub none words1000Analysis 5 2).word_ratio = some 0 := rfl

/-- Helper: the candidate test of strategy 2 succeeds exactly on the
size, boldness and length conditions, because the collecting guard
repeats the size test of the outer condition as its second disjunct. -/
theorem headingFromBlock_isSome_iff (body_size heading_min_size : ℚ)
    (page_num : ℕ) (b : Block) :
    (headingFromBlock body_size heading_min_size page_num b).isSome = true ↔
      (heading_min_size ≤ b.size ∧ b.bold = true ∧
        countWords b.text ≤ 12 ∧ 2 < b.text.length) := by
  unfold headingFromBlock
  split
  · rename_i hcond
    rw [if_pos (Or.inr hcond.1)]
    simpa using hcond
  · rename_i hcond
    simpa using hcond

/-- C3 (amended): a block on a non-scanned page is collected as a heading
candidate iff its size reaches the heading threshold, it is bold, and its
text is at most 12 words and more than 2 characters; the chapter-likeness
tests are evaluated but cannot reject a block, because the collecting
guard repeats the size test as its second disjunct. -/
theorem C3_candidate_iff (body_size heading_min_size : ℚ) (page_num : ℕ)
    (b : Block) :
    (headingFromBlock body_size heading_min_size page_num b).isSome = true ↔
      (heading_min_size ≤ b.size ∧ b.bold = true ∧
        countWords b.text ≤ 12 ∧ 2 < b.text.length) :=
  headingFromBlock_isSome_iff body_size heading_min_size page_num b

/-- C3 counterexample: a bold block whose size reaches the heading
threshold but which passes no chapter-likeness test (no keyword, no
ordinal prefix, size below 1.5 times the body size) is nevertheless
collected, contradicting the claim that such a block is not a candidate. -/
theorem C3_counterexample :
    (headingFromBlock 10 13 0 plainBoldBlock).isSome = true ∧
    startsWithKeyword (stripText plainBoldBlock.text) = false ∧
    startsWithDecimal (stripText plainBoldBlock.text) = false ∧
    startsWithRoman (stripText plainBoldBlock.text) = false ∧
    ¬ ((10 : ℚ) * 1.5 ≤ plainBoldBlock.size) := by
  refine ⟨?_, by decide, by decide, by decide, by norm_num [plainBoldBlock]⟩
  rw [headingFromBlock_isSome_iff]
  refine ⟨by norm_num [plainBoldBlock], by decide, by decide, by decide⟩

/-- C1 counterexample: on a document whose outline entries are not sorted
by page, the tier 1 partition contains a page twice, so the cover is not
overlap free as the claim states for every document. -/
theorem C1_counterexample :
    ¬ ((structure_chapters unsortedTocAnalysis noOcr defaultParams).flatMap
        (fun c => c.pages)).Nodup := by decide

/-- Helper: integer ranges with equal clamped starts and lengths agree. -/
theorem pyRangeNat_congr {a b c d : ℤ} (h1 : a.toNat = c.toNat)
    (h2 : (b - a).toNat = (d - c).toNat) : pyRangeNat a b = pyRangeNat c d := by
  simp [pyRangeNat, h1, h2]

/-- Helper: an integer range with a non-positive extent is empty. -/
theorem pyRangeNat_empty {a b : ℤ} (h : b ≤ a) : pyRangeNat a b = [] := by
  have : (b - a).toNat = 0 := by omega
  simp [pyRangeNat, this]

/-- Helper: length of a natural range. -/
theorem natRange_length (a b : ℕ) : (natRange a b).length = b - a := by
  simp [natRange]

/-- Helper: a natural range with room is non-empty. -/
theorem natRange_ne_nil {a b : ℕ} (h : a < b) : natRange a b ≠ [] := by
  intro hnil
  have := natRange_length a b
  rw [hnil] at this
  simp at this
  omega

/-- Helper: adjacent natural ranges concatenate. -/
theorem natRange_glue {a b c : ℕ} (hab : a ≤ b) (hbc : b ≤ c) :
    natRange a b ++ natRange b c = natRange a c := by
  unfold natRange
  have hsplit : c - a = (b - a) + (c - b) := by omega
  rw [hsplit, List.range_add, List.map_append, List.map_map]
  congr 1
  have hfun : ((fun k => a + k) ∘ fun x => (b - a) + x) = (fun k => b + k) := by
    funext x
    simp
    omega
  rw [hfun]

/-- Helper: adjacent integer ranges with a non-negative start concatenate. -/
theorem pyRangeNat_glue {a b c : ℤ} (ha : 0 ≤ a) (hab : a ≤ b) (hbc : b ≤ c) :
    pyRangeNat a b ++ pyRangeNat b c = pyRangeNat a c := by
  unfold pyRangeNat
  have hsplit : (c - a).toNat = (b - a).toNat + (c - b).toNat := by omega
  rw [hsplit, List.range_add, List.map_append, List.map_map]
  congr 1
  have hfun : ((fun k => a.toNat + k) ∘ fun x => (b - a).toNat + x) =
      (fun k => b.toNat + k) := by
    funext x
    simp
    omega
  rw [hfun]

/-- Helper: an integer range with non-negative start is a natural range. -/
theorem pyRangeNat_eq_natRange {a b : ℤ} (ha : 0 ≤ a) :
    pyRangeNat a b = natRange a.toNat b.toNat := by
  unfold pyRangeNat natRange
  have h : (b - a).toNat = b.toNat - a.toNat := by omega
  rw [h]

/-- Helper: the natural range from zero is the standard range. -/
theorem natRange_zero (n : ℕ) : natRange 0 n = List.range n := by
  simp [natRange]

/-- Helper: the head of a non-empty natural range is its start. -/
theorem natRange_head? {a b : ℕ} (h : a < b) : (natRange a b).head? = some a := by
  unfold natRange
  obtain ⟨m, hm⟩ : ∃ m, b - a = m + 1 := ⟨b - a - 1, by omega⟩
  rw [hm, List.range_succ_eq_map]
  simp

/-- Helper: a guarded singleton chapter contributes exactly its pages. -/
theorem guard_flatMap (t : List Char) (ps : List ℕ) :
    (if ps = [] then ([] : List ChapterSkel) else [ChapterSkel.mk t ps]).flatMap
      (fun c => c.pages) = ps := by
  split
  · rename_i h
    rw [h]
    rfl
  · simp

/-- Helper: every chapter kept by the strategy 1 span construction has a
non-empty page list. -/
theorem tocSpans_pages_ne_nil (n : ℤ) :
    ∀ bs, ∀ c ∈ tocSpans n bs, c.pages ≠ [] := by
  intro bs
  induction bs with
  | nil => intro c hc; simp [tocSpans] at hc
  | cons b rest ih =>
    intro c hc
    rw [tocSpans, List.mem_append] at hc
    rcases hc with hc | hc
    · split at hc
      · simp at hc
      · rename_i hne
        obtain rfl : c = ChapterSkel.mk b.1 _ := List.mem_singleton.mp hc
        exact hne
    · exact ih c hc

/-- Helper: with boundaries listed in ascending page order, the strategy 1
spans concatenate to the integer range from the clamped first start to the
end of the document. -/
theorem tocSpans_flat (n : ℤ) :
    ∀ (b : List Char × ℤ) (rest : List (List Char × ℤ)),
      List.Chain' (fun x y => x.2 ≤ y.2) (b :: rest) → 0 ≤ n →
      (tocSpans n (b :: rest)).flatMap (fun c => c.pages) =
        pyRangeNat (max 0 (min b.2 n)) n := by
  intro b rest
  induction rest generalizing b with
  | nil =>
    intro _ hn
    rw [tocSpans, List.flatMap_append, guard_flatMap]
    rw [show tocSpans n [] = [] from rfl]
    rw [show tocEnd n [] = n from rfl, min_self]
    simp only [List.flatMap_nil, List.append_nil]
    by_cases hs : b.2 ≤ n
    · exact pyRangeNat_congr (by omega) (by omega)
    · rw [pyRangeNat_empty (by omega), pyRangeNat_empty (by omega)]
  | cons b2 rest2 ih =>
    intro hchain hn
    have hss : b.2 ≤ b2.2 := (List.chain'_cons.mp hchain).1
    have hchain2 : List.Chain' (fun x y => x.2 ≤ y.2) (b2 :: rest2) :=
      (List.chain'_cons.mp hchain).2
    rw [tocSpans, List.flatMap_append, guard_flatMap,
      show tocEnd n (b2 :: rest2) = b2.2 from rfl, ih b2 hchain2 hn]
    by_cases hcase : min b2.2 n ≤ max 0 b.2
    · rw [pyRangeNat_empty hcase, List.nil_append]
      exact pyRangeNat_congr (by omega) (by omega)
    · push_neg at hcase
      have hmid : max 0 (min b2.2 n) = min b2.2 n := by omega
      rw [hmid, pyRangeNat_glue (by omega) (by omega) (by omega)]
      exact pyRangeNat_congr (by omega) (by omega)

/-- Helper: every chapter kept by the strategy 2 span construction has a
non-empty page list. -/
theorem headingSpans_pages_ne_nil (n : ℕ) :
    ∀ hs, ∀ c ∈ headingSpans n hs, c.pages ≠ [] := by
  intro hs
  induction hs with
  | nil => intro c hc; simp [headingSpans] at hc
  | cons h rest ih =>
    intro c hc
    rw [headingSpans, List.mem_append] at hc
    rcases hc with hc | hc
    · split at hc
      · simp at hc
      · rename_i hne
        obtain rfl : c = ChapterSkel.mk h.title _ := List.mem_singleton.mp hc
        exact hne
    · exact ih c hc

/-- Helper: with strictly ascending candidate pages below the page count,
the strategy 2 spans concatenate to the range from the first candidate
page to the end of the document. -/
theorem headingSpans_flat (n : ℕ) :
    ∀ (h : Heading) (rest : List Heading),
      List.Chain' (fun a b => a.page < b.page) (h :: rest) →
      (∀ x ∈ h :: rest, x.page < n) →
      (headingSpans n (h :: rest)).flatMap (fun c => c.pages) =
        natRange h.page n := by
  intro h rest
  induction rest generalizing h with
  | nil =>
    intro _ hlt
    rw [headingSpans, List.flatMap_append, guard_flatMap,
      show headingSpans n [] = [] from rfl, show headingEnd n [] = n from rfl]
    simp only [List.flatMap_nil, List.append_nil]
  | cons h2 rest2 ih =>
    intro hchain hlt
    have hss : h.page < h2.page := (List.chain'_cons.mp hchain).1
    have hchain2 : List.Chain' (fun a b => a.page < b.page) (h2 :: rest2) :=
      (List.chain'_cons.mp hchain).2
    have hlt2 : ∀ x ∈ h2 :: rest2, x.page < n := fun x hx =>
      hlt x (List.mem_cons_of_mem h hx)
    rw [headingSpans, List.flatMap_append, guard_flatMap,
      show headingEnd n (h2 :: rest2) = h2.page from rfl, ih h2 hchain2 hlt2]
    exact natRange_glue (Nat.le_of_lt hss)
      (Nat.le_of_lt (hlt2 h2 (List.mem_cons_self h2 rest2)))

/-- Helper: prepending the synthetic front-matter chapter turns a cover of
the tail interval into a cover of the whole document. -/
theorem addFrontMatter_flat (chs : List ChapterSkel) (b n : ℕ)
    (hne : chs ≠ []) (hpages : ∀ c ∈ chs, c.pages ≠ [])
    (hflat : chs.flatMap (fun c => c.pages) = natRange b n) :
    (addFrontMatter chs).flatMap (fun c => c.pages) = List.range n := by
  obtain ⟨c, rest, rfl⟩ : ∃ c rest, chs = c :: rest := by
    cases chs with
    | nil => exact absurd rfl hne
    | cons c rest => exact ⟨c, rest, rfl⟩
  obtain ⟨p, ps, hcp⟩ : ∃ p ps, c.pages = p :: ps := by
    cases hcpages : c.pages with
    | nil => exact absurd hcpages (hpages c (List.mem_cons_self c rest))
    | cons p ps => exact ⟨p, ps, rfl⟩
  have hhead : ((c :: rest).flatMap (fun c => c.pages)).head? = some p := by
    rw [List.flatMap_cons, hcp]
    rfl
  have hbn : b < n := by
    by_contra hge
    push_neg at hge
    have hemp : natRange b n = [] := by
      unfold natRange
      have h0 : n - b = 0 := by omega
      simp [h0]
    rw [hflat, hemp] at hhead
    exact Option.noConfusion hhead
  have hpb : p = b := by
    rw [hflat, natRange_head? hbn] at hhead
    exact (Option.some_inj.mp hhead).symm
  rw [addFrontMatter, hcp]
  show (if 0 < p then
      (if natRange 0 p = [] then c :: rest
       else ChapterSkel.mk "Portada".data (natRange 0 p) :: c :: rest)
    else c :: rest).flatMap (fun c => c.pages) = List.range n
  by_cases hp : 0 < p
  · rw [if_pos hp]
    have hfront : natRange 0 p ≠ [] := natRange_ne_nil hp
    rw [if_neg hfront]
    rw [List.flatMap_cons]
    show natRange 0 p ++ (c :: rest).flatMap (fun c => c.pages) = List.range n
    rw [hflat, hpb, natRange_glue (Nat.zero_le b) (Nat.le_of_lt hbn), natRange_zero]
  · rw [if_neg hp]
    have hb0 : b = 0 := by omega
    rw [hflat, hb0, natRange_zero]

/-- Helper: lookup fails exactly when the key is absent. -/
theorem seenLookup_eq_none_iff (p : ℕ) :
    ∀ l : List (ℕ × Heading), seenLookup p l = none ↔ p ∉ l.map Prod.fst := by
  intro l
  induction l with
  | nil => simp [seenLookup]
  | cons e t ih =>
    by_cases he : e.1 = p
    · simp [seenLookup, he]
    · simp [seenLookup, he, ih, Ne.symm he]

/-- Helper: one deduplication step preserves distinct keys, the key-page
agreement, and membership of the stored candidates in the scanned list. -/
theorem updSeen_inv (hs : List Heading) (seen : List (ℕ × Heading)) (h : Heading)
    (hh : h ∈ hs)
    (hinv : (seen.map Prod.fst).Nodup ∧ ∀ e ∈ seen, e.1 = e.2.page ∧ e.2 ∈ hs) :
    ((updSeen seen h).map Prod.fst).Nodup ∧
      ∀ e ∈ updSeen seen h, e.1 = e.2.page ∧ e.2 ∈ hs := by
  unfold updSeen
  cases hlk : seenLookup h.page seen with
  | some h0 =>
    constructor
    · have hfst : (seen.map (fun e =>
          if e.1 = h.page ∧ e.2.size < h.size then (e.1, h) else e)).map Prod.fst =
          seen.map Prod.fst := by
        rw [List.map_map]
        apply List.map_congr_left
        intro e _
        by_cases hc : e.1 = h.page ∧ e.2.size < h.size
        · simp [hc]
        · simp [hc]
      rw [hfst]
      exact hinv.1
    · intro e he
      rw [List.mem_map] at he
      obtain ⟨e0, he0, rfl⟩ := he
      by_cases hc : e0.1 = h.page ∧ e0.2.size < h.size
      · simp only [if_pos hc]
        exact ⟨hc.1, hh⟩
      · simp only [if_neg hc]
        exact hinv.2 e0 he0
  | none =>
    constructor
    · rw [List.map_append]
      rw [List.nodup_append]
      refine ⟨hinv.1, List.nodup_singleton _, ?_⟩
      intro x hx hx2
      simp only [List.map_cons, List.map_nil, List.mem_singleton] at hx2
      subst hx2
      exact (seenLookup_eq_none_iff h.page seen).mp hlk hx
    · intro e he
      rw [List.mem_append] at he
      rcases he with he | he
      · exact hinv.2 e he
      · rw [List.mem_singleton] at he
        subst he
        exact ⟨rfl, hh⟩

/-- Helper: the deduplicated association list has distinct keys, each key
is its candidate page, and each stored candidate was scanned. -/
theorem dedup_inv (hs : List Heading) :
    ((dedupHeadings hs).map Prod.fst).Nodup ∧
      ∀ e ∈ dedupHeadings hs, e.1 = e.2.page ∧ e.2 ∈ hs := by
  unfold dedupHeadings
  suffices hgen : ∀ (l : List Heading) (acc : List (ℕ × Heading)),
      (∀ x ∈ l, x ∈ hs) →
      ((acc.map Prod.fst).Nodup ∧ ∀ e ∈ acc, e.1 = e.2.page ∧ e.2 ∈ hs) →
      (((l.foldl updSeen acc).map Prod.fst).Nodup ∧
        ∀ e ∈ l.foldl updSeen acc, e.1 = e.2.page ∧ e.2 ∈ hs) by
    exact hgen hs [] (fun x hx => hx) ⟨List.nodup_nil, by simp⟩
  intro l
  induction l with
  | nil => intro acc _ hinv; exact hinv
  | cons x t ih =>
    intro acc hall hinv
    simp only [List.foldl_cons]
    exact ih (updSeen acc x) (fun y hy => hall y (List.mem_cons_of_mem x hy))
      (updSeen_inv hs acc x (hall x (List.mem_cons_self x t)) hinv)

/-- Helper: one deduplication step never empties the table. -/
theorem updSeen_ne_nil (seen : List (ℕ × Heading)) (h : Heading) :
    updSeen seen h ≠ [] := by
  unfold updSeen
  cases hlk : seenLookup h.page seen with
  | some h0 =>
    cases seen with
    | nil => simp [seenLookup] at hlk
    | cons e t => simp
  | none => simp

/-- Helper: deduplicating a non-empty candidate list is non-empty. -/
theorem dedup_ne_nil (hs : List Heading) (hne : hs ≠ []) :
    dedupHeadings hs ≠ [] := by
  unfold dedupHeadings
  suffices hgen : ∀ (l : List Heading) (acc : List (ℕ × Heading)),
      acc ≠ [] ∨ l ≠ [] → l.foldl updSeen acc ≠ [] by
    exact hgen hs [] (Or.inr hne)
  intro l
  induction l with
  | nil =>
    intro acc hd
    rcases hd with h | h
    · exact h
    · exact absurd rfl h
  | cons x t ih =>
    intro acc _
    simp only [List.foldl_cons]
    exact ih (updSeen acc x) (Or.inl (updSeen_ne_nil acc x))

/-- Helper: the sorted candidate list is a permutation of the
deduplicated candidates. -/
theorem sortedHeadings_perm (hs : List Heading) :
    (sortedHeadings hs).Perm ((dedupHeadings hs).map Prod.snd) :=
  List.perm_insertionSort headingLE _

/-- Helper: the pages of the sorted candidates are pairwise distinct. -/
theorem sortedHeadings_pages_nodup (hs : List Heading) :
    ((sortedHeadings hs).map (fun h => h.page)).Nodup := by
  have hperm := (sortedHeadings_perm hs).map (fun h => h.page)
  rw [List.Perm.nodup_iff hperm]
  have hvals : ((dedupHeadings hs).map Prod.snd).map (fun h => h.page) =
      (dedupHeadings hs).map Prod.fst := by
    rw [List.map_map]
    apply List.map_congr_left
    intro e he
    exact ((dedup_inv hs).2 e he).1.symm
  rw [hvals]
  exact (dedup_inv hs).1

/-- Helper: the sorted candidate pages are strictly increasing. -/
theorem sortedHeadings_chain_lt (hs : List Heading) :
    List.Chain' (fun a b => a.page < b.page) (sortedHeadings hs) := by
  have h1 : List.Pairwise headingLE (sortedHeadings hs) :=
    List.sorted_insertionSort headingLE _
  have h2 : List.Pairwise (fun a b : Heading => a.page ≠ b.page)
      (sortedHeadings hs) := by
    have hnd := sortedHeadings_pages_nodup hs
    rw [List.Nodup, List.pairwise_map] at hnd
    exact hnd
  refine List.Pairwise.chain' ((h1.and h2).imp ?_)
  rintro a b ⟨hle, hne⟩
  exact lt_of_le_of_ne hle hne

/-- Helper: sorted candidates come from the scanned candidate list. -/
theorem sortedHeadings_mem (hs : List Heading) :
    ∀ x ∈ sortedHeadings hs, x ∈ hs := by
  intro x hx
  have hm := (sortedHeadings_perm hs).mem_iff.mp hx
  rw [List.mem_map] at hm
  obtain ⟨e, he, rfl⟩ := hm
  exact ((dedup_inv hs).2 e he).2

/-- Helper: sorting a non-empty candidate list is non-empty. -/
theorem sortedHeadings_ne_nil (hs : List Heading) (hne : hs ≠ []) :
    sortedHeadings hs ≠ [] := by
  intro hnil
  have hperm := sortedHeadings_perm hs
  rw [hnil] at hperm
  have hvals : (dedupHeadings hs).map Prod.snd = [] := hperm.symm.eq_nil
  rw [List.map_eq_nil_iff] at hvals
  exact dedup_ne_nil hs hne hvals

/-- Helper: page records numbered from `i` have page numbers below the
end of the numbering. -/
theorem pagesNumbered_mem :
    ∀ (l : List PageData) (i : ℕ), pagesNumbered i l = true →
      ∀ pd ∈ l, pd.page_num < i + l.length := by
  intro l
  induction l with
  | nil => intro i _ pd hpd; simp at hpd
  | cons x t ih =>
    intro i hnum pd hpd
    rw [pagesNumbered, Bool.and_eq_true] at hnum
    rcases List.mem_cons.mp hpd with rfl | hm
    · have hx : pd.page_num = i := of_decide_eq_true hnum.1
      simp [hx]
    · have := ih (i + 1) hnum.2 pd hm
      simp only [List.length_cons]
      omega

/-- Helper: a successful candidate test stamps the scanning page number. -/
theorem headingFromBlock_page (bs hm : ℚ) (pn : ℕ) (b : Block) (h : Heading)
    (hsome : headingFromBlock bs hm pn b = some h) : h.page = pn := by
  unfold headingFromBlock at hsome
  split at hsome
  · dsimp only at hsome
    split at hsome
    · injection hsome with he
      rw [← he]
    · exact Option.noConfusion hsome
  · exact Option.noConfusion hsome

/-- Helper: on a well-formed analysis every detected candidate page lies
inside the document. -/
theorem detectedHeadings_page_lt (a : Analysis) (p : Params) (hwf : a.wf) :
    ∀ h ∈ detectedHeadings a p, h.page < a.pages.length := by
  intro h hmem
  unfold detectedHeadings at hmem
  rw [List.mem_flatMap] at hmem
  obtain ⟨pd, hpd, hin⟩ := hmem
  have hpage : h.page = pd.page_num := by
    split at hin
    · simp at hin
    · rw [List.mem_filterMap] at hin
      obtain ⟨b, _, hb⟩ := hin
      exact headingFromBlock_page _ _ _ _ _ hb
  rw [hpage]
  have := pagesNumbered_mem a.pages 0 hwf pd hpd
  simpa using this

/-- Helper: consecutive chunks starting at `a` tile the clamped interval
from `a` to the end of the document. -/
theorem chunksCover (nZ cs : ℤ) (hcs : 0 < cs) :
    ∀ (q : ℕ) (a : ℤ), 0 ≤ a →
      ((List.range q).map (fun k : ℕ => a + (k : ℤ) * cs)).flatMap
        (fun i => pyRangeNat i (min (i + cs) nZ)) =
      pyRangeNat a (min (a + cs * (q : ℤ)) nZ) := by
  intro q
  induction q with
  | zero =>
    intro a ha
    simp only [List.range_zero, List.map_nil, List.flatMap_nil]
    have h0 : a + cs * ((0 : ℕ) : ℤ) = a := by push_cast; ring
    rw [h0, pyRangeNat_empty (min_le_left a nZ)]
  | succ q ih =>
    intro a ha
    rw [List.range_succ_eq_map]
    simp only [List.map_cons, List.map_map, List.flatMap_cons]
    have h0 : a + ((0 : ℕ) : ℤ) * cs = a := by push_cast; ring
    rw [h0]
    have hfun : ((fun k : ℕ => a + (k : ℤ) * cs) ∘ Nat.succ) =
        (fun k : ℕ => (a + cs) + (k : ℤ) * cs) := by
      funext k
      simp only [Function.comp]
      push_cast
      ring
    rw [hfun, ih (a + cs) (by omega)]
    have harith : a + cs * ((q + 1 : ℕ) : ℤ) = (a + cs) + cs * (q : ℤ) := by
      push_cast
      ring
    rw [harith]
    have hq0 : (0 : ℤ) ≤ cs * (q : ℤ) := mul_nonneg (le_of_lt hcs) (Int.natCast_nonneg q)
    by_cases hend : a + cs ≤ nZ
    · have h1 : min (a + cs) nZ = a + cs := min_eq_left hend
      rw [h1]
      exact pyRangeNat_glue ha (by omega) (le_min (by omega) hend)
    · push_neg at hend
      have h1 : min (a + cs) nZ = nZ := min_eq_right (le_of_lt hend)
      rw [h1, pyRangeNat_empty (le_trans (min_le_right _ _) (le_of_lt hend)),
        List.append_nil]
      have h2 : min ((a + cs) + cs * (q : ℤ)) nZ = nZ := min_eq_right (by omega)
      rw [h2]

/-- Helper: enumeration indices do not affect a flat map that only reads
the enumerated values. -/
theorem enum_flatMap_snd {α β : Type} (l : List α) (g : α → List β) :
    l.enum.flatMap (fun e => g e.2) = l.flatMap g := by
  conv_rhs => rw [← List.enum_map_snd l]
  rw [List.flatMap_map]

/-- Helper: with a positive chunk size, the fixed tiling of strategy 3
covers the document exactly. -/
theorem tier3_flat (a : Analysis) (p : Params) (hcs : 1 ≤ p.chunk_size) :
    (tier3Skeleton a p).flatMap (fun c => c.pages) =
      List.range a.pages.length := by
  unfold tier3Skeleton
  rw [List.flatMap_map]
  have hstep := enum_flatMap_snd (rangeStep 0 (a.pages.length : ℤ) p.chunk_size)
    (fun i => pyRangeNat i (min (i + p.chunk_size) (a.pages.length : ℤ)))
  simp only at hstep ⊢
  rw [hstep]
  unfold rangeStep
  rw [if_pos (by omega)]
  rw [chunksCover (a.pages.length : ℤ) p.chunk_size (by omega) _ 0 le_rfl]
  set nN := a.pages.length with hnN
  set c' := p.chunk_size.toNat with hc'
  have hc'pos : 0 < c' := by omega
  have hcast : ((c' : ℤ)) = p.chunk_size := by omega
  have hq : (nN : ℤ) ≤ p.chunk_size *
      ((((nN : ℤ) - 0).toNat + c' - 1) / c' : ℕ) := by
    have htn : ((nN : ℤ) - 0).toNat = nN := by omega
    rw [htn]
    have hd := Nat.div_add_mod (nN + c' - 1) c'
    have hm := Nat.mod_lt (nN + c' - 1) hc'pos
    have hnat : nN ≤ c' * ((nN + c' - 1) / c') := by
      generalize hM : c' * ((nN + c' - 1) / c') = M at hd ⊢
      omega
    calc ((nN : ℤ)) ≤ ((c' * ((nN + c' - 1) / c') : ℕ) : ℤ) := by exact_mod_cast hnat
      _ = p.chunk_size * (((nN + c' - 1) / c' : ℕ) : ℤ) := by push_cast [hcast]; ring
  have hmin : min (0 + p.chunk_size *
      (((((nN : ℤ)) - 0).toNat + c' - 1) / c' : ℕ)) ((nN : ℤ)) = (nN : ℤ) :=
    min_eq_right (by omega)
  rw [hmin, pyRangeNat_eq_natRange le_rfl]
  simp [natRange_zero]

/-- Helper: content building keeps every chapter page list unchanged. -/
theorem build_flatMap_pages (chs : List ChapterSkel) (pages : List PageData)
    (ocr : ℕ → Option (List Char)) (a : Analysis) :
    (_build_chapter_content chs pages ocr a).flatMap (fun c => c.pages) =
      chs.flatMap (fun c => c.pages) := by
  unfold _build_chapter_content
  rw [List.flatMap_map]

/-- Helper: when strategy 1 returns and its qualifying boundaries are in
ascending page order, its chapters partition the document. -/
theorem tier1Skeleton_flat (a : Analysis)
    (hchain : List.Chain' (fun x y => x.2 ≤ y.2) (tocBoundaries a.toc))
    (chs : List ChapterSkel) (h : tier1Skeleton a = some chs) :
    chs.flatMap (fun c => c.pages) = List.range a.pages.length := by
  unfold tier1Skeleton at h
  by_cases h2 : 2 ≤ a.toc.length
  case neg =>
    rw [if_neg h2] at h
    exact Option.noConfusion h
  rw [if_pos h2] at h
  dsimp only at h
  by_cases hbs : tocBoundaries a.toc = []
  · rw [if_pos hbs] at h
    exact Option.noConfusion h
  · rw [if_neg hbs] at h
    by_cases hch : tocSpans (a.pages.length : ℤ) (tocBoundaries a.toc) = []
    · rw [if_pos hch] at h
      exact Option.noConfusion h
    · rw [if_neg hch] at h
      obtain rfl : addFrontMatter (tocSpans (a.pages.length : ℤ)
          (tocBoundaries a.toc)) = chs := Option.some_inj.mp h
      obtain ⟨b, rest, hbr⟩ : ∃ b rest, tocBoundaries a.toc = b :: rest := by
        cases hx : tocBoundaries a.toc with
        | nil => exact absurd hx hbs
        | cons b rest => exact ⟨b, rest, rfl⟩
      have hflat := tocSpans_flat (a.pages.length : ℤ) b rest
        (by rw [← hbr]; exact hchain) (Int.natCast_nonneg _)
      rw [← hbr] at hflat
      have hconv : pyRangeNat (max 0 (min b.2 (a.pages.length : ℤ)))
          (a.pages.length : ℤ) =
          natRange (max 0 (min b.2 (a.pages.length : ℤ))).toNat a.pages.length := by
        rw [pyRangeNat_eq_natRange (le_max_left 0 _)]
        simp
      exact addFrontMatter_flat _ (max 0 (min b.2 (a.pages.length : ℤ))).toNat
        a.pages.length hch (tocSpans_pages_ne_nil _ _) (by rw [hflat, hconv])

/-- Helper: when strategy 2 returns on a well-formed analysis, its
chapters partition the document. -/
theorem tier2Skeleton_flat (a : Analysis) (p : Params) (hwf : a.wf)
    (chs : List ChapterSkel) (h : tier2Skeleton a p = some chs) :
    chs.flatMap (fun c => c.pages) = List.range a.pages.length := by
  unfold tier2Skeleton at h
  dsimp only at h
  by_cases hlen : 2 ≤ (detectedHeadings a p).length
  case neg =>
    rw [if_neg hlen] at h
    exact Option.noConfusion h
  rw [if_pos hlen] at h
  by_cases hch : headingSpans a.pages.length
      (sortedHeadings (detectedHeadings a p)) = []
  · rw [if_pos hch] at h
    exact Option.noConfusion h
  · rw [if_neg hch] at h
    obtain rfl : addFrontMatter (headingSpans a.pages.length
        (sortedHeadings (detectedHeadings a p))) = chs := Option.some_inj.mp h
    have hdne : detectedHeadings a p ≠ [] := by
      intro h0
      rw [h0] at hlen
      simp at hlen
    obtain ⟨hd, tl, hst⟩ : ∃ hd tl,
        sortedHeadings (detectedHeadings a p) = hd :: tl := by
      cases hx : sortedHeadings (detectedHeadings a p) with
      | nil => exact absurd hx (sortedHeadings_ne_nil _ hdne)
      | cons hd tl => exact ⟨hd, tl, rfl⟩
    have hchain : List.Chain' (fun x y => x.page < y.page) (hd :: tl) := by
      rw [← hst]
      exact sortedHeadings_chain_lt _
    have hmem : ∀ x ∈ hd :: tl, x.page < a.pages.length := by
      intro x hx
      rw [← hst] at hx
      exact detectedHeadings_page_lt a p hwf x (sortedHeadings_mem _ x hx)
    have hflat := headingSpans_flat a.pages.length hd tl hchain hmem
    rw [← hst] at hflat
    exact addFrontMatter_flat _ hd.page a.pages.length hch
      (headingSpans_pages_ne_nil _ _) hflat

/-- Helper: strategy 1 returns exactly when the outline has at least two
entries of any nesting level and the qualifying boundaries produce at
least one non-empty span. -/
theorem tier1Skeleton_isSome_iff (a : Analysis) :
    (tier1Skeleton a).isSome = true ↔
      (2 ≤ a.toc.length ∧
        tocSpans (a.pages.length : ℤ) (tocBoundaries a.toc) ≠ []) := by
  unfold tier1Skeleton
  by_cases h2 : 2 ≤ a.toc.length
  · rw [if_pos h2]
    dsimp only
    by_cases hbs : tocBoundaries a.toc = []
    · rw [if_pos hbs, hbs]
      simp [h2, tocSpans]
    · rw [if_neg hbs]
      by_cases hch : tocSpans (a.pages.length : ℤ) (tocBoundaries a.toc) = []
      · rw [if_pos hch]
        simp [h2, hch]
      · rw [if_neg hch]
        simp [h2, hch]
  · rw [if_neg h2]
    simp [h2]

/-- Helper: on a well-formed analysis strategy 2 returns exactly when at
least two raw candidates were detected. -/
theorem tier2Skeleton_isSome_iff (a : Analysis) (p : Params) (hwf : a.wf) :
    (tier2Skeleton a p).isSome = true ↔
      2 ≤ (detectedHeadings a p).length := by
  unfold tier2Skeleton
  dsimp only
  by_cases hlen : 2 ≤ (detectedHeadings a p).length
  · rw [if_pos hlen]
    have hdne : detectedHeadings a p ≠ [] := by
      intro h0
      rw [h0] at hlen
      simp at hlen
    obtain ⟨hd, tl, hst⟩ : ∃ hd tl,
        sortedHeadings (detectedHeadings a p) = hd :: tl := by
      cases hx : sortedHeadings (detectedHeadings a p) with
      | nil => exact absurd hx (sortedHeadings_ne_nil _ hdne)
      | cons hd tl => exact ⟨hd, tl, rfl⟩
    have hchain : List.Chain' (fun x y => x.page < y.page) (hd :: tl) := by
      rw [← hst]
      exact sortedHeadings_chain_lt _
    have hmem : ∀ x ∈ hd :: tl, x.page < a.pages.length := by
      intro x hx
      rw [← hst] at hx
      exact detectedHeadings_page_lt a p hwf x (sortedHeadings_mem _ x hx)
    have hch : headingSpans a.pages.length
        (sortedHeadings (detectedHeadings a p)) ≠ [] := by
      rw [hst]
      intro h0
      have hflat := headingSpans_flat a.pages.length hd tl hchain hmem
      rw [h0] at hflat
      exact natRange_ne_nil (hmem hd (List.mem_cons_self hd tl)) hflat.symm
    rw [if_neg hch]
    simp [hlen]
  · rw [if_neg hlen]
    simp [hlen]

/-- Helper: single-character replacement distributes over append. -/
theorem replaceChar_append (c : Char) (rep l1 l2 : List Char) :
    replaceChar c rep (l1 ++ l2) = replaceChar c rep l1 ++ replaceChar c rep l2 := by
  induction l1 with
  | nil => rfl
  | cons x xs ih => simp [replaceChar, ih]

/-- Helper: the four sequential replacements act on one character as the
per-character escape table. -/
theorem escape_cons (c : Char) (cs : List Char) :
    _escape_html (c :: cs) = escChar c ++ _escape_html cs := by
  unfold _escape_html
  have h1 : replaceChar '&' "&amp;".data (c :: cs) =
      (if c = '&' then "&amp;".data else [c]) ++ replaceChar '&' "&amp;".data cs := by
    simp [replaceChar]
  rw [h1, replaceChar_append, replaceChar_append, replaceChar_append]
  congr 1
  by_cases ha : c = '&'
  · subst ha
    rfl
  · by_cases hl : c = '<'
    · subst hl
      rfl
    · by_cases hg : c = '>'
      · subst hg
        rfl
      · by_cases hq : c = '\"'
        · subst hq
          rfl
        · simp [replaceChar, escChar, ha, hl, hg, hq]

/-- Helper: the escape function is the concatenation of the per-character
escape table over the input. -/
theorem escape_eq_flatMap (s : List Char) :
    _escape_html s = s.flatMap escChar := by
  induction s with
  | nil => rfl
  | cons c cs ih => rw [escape_cons, ih, List.flatMap_cons]

/-- Helper: the escape of one character followed by an entity-clean tail
keeps the tail scan result. -/
theorem ampOk_escChar_append (c : Char) (l : List Char) :
    ampOk (escChar c ++ l) = ampOk l := by
  by_cases ha : c = '&'
  · subst ha
    simp [escChar, ampOk, startsWithSeq]
  · by_cases hl : c = '<'
    · subst hl
      simp [escChar, ampOk, startsWithSeq]
    · by_cases hg : c = '>'
      · subst hg
        simp [escChar, ampOk, startsWithSeq]
      · by_cases hq : c = '\"'
        · subst hq
          simp [escChar, ampOk, startsWithSeq]
        · simp [escChar, ampOk, ha, hl, hg, hq]

/-- Helper: the per-character escape table never emits a literal special
character. -/
theorem special_not_mem_escChar (x : Char) :
    '<' ∉ escChar x ∧ '>' ∉ escChar x ∧ '\"' ∉ escChar x := by
  unfold escChar
  split
  · exact ⟨by decide, by decide, by decide⟩
  · split
    · exact ⟨by decide, by decide, by decide⟩
    · split
      · exact ⟨by decide, by decide, by decide⟩
      · split
        · exact ⟨by decide, by decide, by decide⟩
        · rename_i h1 h2 h3 h4
          exact ⟨fun h => h2 (List.mem_singleton.mp h).symm,
            fun h => h3 (List.mem_singleton.mp h).symm,
            fun h => h4 (List.mem_singleton.mp h).symm⟩

/-- C9: the markup escape applied to every source text is exactly the
per-character entity substitution, so the rendered markup contains no
literal less-than, greater-than or quote character coming from source
text, and every ampersand in it begins one of the four entity escapes. -/
theorem C9_escaping (s : List Char) :
    _escape_html s = s.flatMap escChar ∧
    '<' ∉ _escape_html s ∧ '>' ∉ _escape_html s ∧ '\"' ∉ _escape_html s ∧
    ampOk (_escape_html s) = true := by
  have hamp : ampOk (s.flatMap escChar) = true := by
    induction s with
    | nil => rfl
    | cons c cs ih => rw [List.flatMap_cons, ampOk_escChar_append]; exact ih
  have hflat := escape_eq_flatMap s
  refine ⟨hflat, ?_, ?_, ?_, by rw [hflat]; exact hamp⟩
  · rw [hflat]
    intro hmem
    obtain ⟨x, _, hin⟩ := List.mem_flatMap.mp hmem
    exact (special_not_mem_escChar x).1 hin
  · rw [hflat]
    intro hmem
    obtain ⟨x, _, hin⟩ := List.mem_flatMap.mp hmem
    exact (special_not_mem_escChar x).2.1 hin
  · rw [hflat]
    intro hmem
    obtain ⟨x, _, hin⟩ := List.mem_flatMap.mp hmem
    exact (special_not_mem_escChar x).2.2 hin

/-- C9 witness: the escape characterisation evaluated on a concrete text
containing every special character. -/
theorem C9_escaping_witness :
    _escape_html "a<b&c>d\"e".data = "a<b&c>d\"e".data.flatMap escChar ∧
    ampOk (_escape_html "a<b&c>d\"e".data) = true :=
  ⟨(C9_escaping "a<b&c>d\"e".data).1, (C9_escaping "a<b&c>d\"e".data).2.2.2.2⟩

/-- C3 witness: the candidate characterisation evaluated on the concrete
bold block. -/
theorem C3_candidate_iff_witness :
    (headingFromBlock 12 12 3 plainBoldBlock).isSome = true :=
  (C3_candidate_iff 12 12 3 plainBoldBlock).mpr
    ⟨by norm_num [plainBoldBlock], by decide, by decide, by decide⟩

/-- Helper: with a positive budget the loop produces a non-empty report
list whose non-final entries all failed, exits with the pass flag of the
last report, stores the last report as the surfaced result, and performs
at most the budgeted number of attempts. -/
theorem runLoopAux_spec (attempt : Params → ValidationReport) :
    ∀ (k : ℕ) (p : Params), 1 ≤ k →
      ∃ pre last, (runLoopAux attempt k p).1 = pre ++ [last] ∧
        (∀ r ∈ pre, r.passed = false) ∧
        (runLoopAux attempt k p).2.2 = last.passed ∧
        (runLoopAux attempt k p).2.1 = some last ∧
        pre.length + 1 ≤ k := by
  intro k
  induction k with
  | zero => intro p h; omega
  | succ k ih =>
    intro p _
    by_cases hr : (attempt p).passed
    · refine ⟨[], attempt p, ?_, ?_, ?_, ?_, ?_⟩ <;>
        simp [runLoopAux, hr]
    · rcases Nat.eq_zero_or_pos k with hk | hk
      · subst hk
        refine ⟨[], attempt p, ?_, ?_, ?_, ?_, ?_⟩ <;>
          simp [runLoopAux, hr]
      · obtain ⟨pre', last', h1, h2, h3, h4, h5⟩ :=
          ih (if 0 < k then adjust_params p (attempt p) else p) hk
        refine ⟨attempt p :: pre', last', ?_, ?_, ?_, ?_, ?_⟩
        · simp [runLoopAux, hr, h1]
        · intro r hrm
          rcases List.mem_cons.mp hrm with h | h
          · subst h
            simpa using hr
          · exact h2 r h
        · simp [runLoopAux, hr, h3]
        · simp [runLoopAux, hr, h4]
        · simpa using Nat.succ_le_succ h5

/-- Helper: when every attempt fails, the loop uses its whole budget. -/
theorem runLoopAux_length_all_fail (attempt : Params → ValidationReport)
    (hfail : ∀ q, (attempt q).passed = false) :
    ∀ (k : ℕ) (p : Params), (runLoopAux attempt k p).1.length = k := by
  intro k
  induction k with
  | zero => intro p; rfl
  | succ k ih =>
    intro p
    simp [runLoopAux, hfail p, ih]

/-- Helper: every report the loop returns is the value of the attempt
function at some parameter set. -/
theorem runLoopAux_reports_are_attempts (attempt : Params → ValidationReport) :
    ∀ (k : ℕ) (p : Params) (r : ValidationReport),
      r ∈ (runLoopAux attempt k p).1 → ∃ q, r = attempt q := by
  intro k
  induction k with
  | zero => intro p r h; simp [runLoopAux] at h
  | succ k ih =>
    intro p r h
    by_cases hr : (attempt p).passed
    · simp [runLoopAux, hr] at h
      exact ⟨p, h⟩
    · simp only [runLoopAux, hr, if_false, Bool.false_eq_true, List.mem_cons] at h
      rcases h with h | h
      · exact ⟨p, h⟩
      · exact ih _ r h

/-- C6: the iteration loop performs at most MAX_ITERATIONS (3) attempts
and always terminates in the Passed or Exhausted state; it ends Passed
iff the final report passed, and every earlier report failed, so the
loop stops at the first passing attempt. -/
theorem C6_loop_bounded_terminates (attempt : Params → ValidationReport)
    (p0 : Params) :
    (process_loop attempt p0).reports.length ≤ MAX_ITERATIONS ∧
    (loopState (process_loop attempt p0) = LoopState.Passed ∨
      loopState (process_loop attempt p0) = LoopState.Exhausted) ∧
    (loopState (process_loop attempt p0) = LoopState.Passed ↔
      ∃ r, (process_loop attempt p0).reports.getLast? = some r ∧ r.passed = true) ∧
    (∀ r ∈ (process_loop attempt p0).reports.dropLast, r.passed = false) := by
  obtain ⟨pre, last, h1, h2, h3, h4, h5⟩ :=
    runLoopAux_spec attempt MAX_ITERATIONS p0 (by norm_num [MAX_ITERATIONS])
  have hrep : (process_loop attempt p0).reports = pre ++ [last] := h1
  have hflag : (process_loop attempt p0).passedFlag = last.passed := h3
  refine ⟨?_, ?_, ?_, ?_⟩
  · rw [hrep]
    simpa using h5
  · unfold loopState
    split
    · exact Or.inl rfl
    · exact Or.inr rfl
  · rw [hrep, List.getLast?_concat]
    unfold loopState
    constructor
    · intro hps
      refine ⟨last, rfl, ?_⟩
      by_contra hlp
      rw [hflag] at hps
      simp [Bool.eq_false_iff.mpr hlp] at hps
    · rintro ⟨r, hr, hp⟩
      obtain rfl : last = r := by injection hr
      rw [hflag, hp]
      rfl
  · rw [hrep, List.dropLast_concat]
    exact h2

/-- C6 witness: an always-passing attempt drives the loop into the Passed
state. -/
theorem C6_loop_bounded_terminates_witness :
    loopState (process_loop passingAttempt defaultParams) = LoopState.Passed :=
  (C6_loop_bounded_terminates passingAttempt defaultParams).2.2.1.mpr
    ⟨passingReport, rfl, rfl⟩

/-- C7: when every attempt fails, the loop uses all 3 attempts and the
controller surfaces the last attempt report in the final quality summary,
field by field, regardless of the scores of earlier attempts. -/
theorem C7_exhausted_surfaces_last (attempt : Params → ValidationReport)
    (p0 : Params) (hfail : ∀ q, (attempt q).passed = false)
    (hread : ∀ q, (attempt q).word_ratio.isSome = true ∧
      (attempt q).source_words.isSome = true ∧
      (attempt q).epub_words.isSome = true) :
    (process_loop attempt p0).reports.length = MAX_ITERATIONS ∧
    ∃ last, (process_loop attempt p0).reports.getLast? = some last ∧
      (process_loop attempt p0).best_result = some last ∧
      finalQualityReport (process_loop attempt p0).best_result =
        some (QualityReport.mk (last.word_ratio.getD 0) (last.source_words.getD 0)
          (last.epub_words.getD 0) last.chapters last.images last.passed) := by
  obtain ⟨pre, last, h1, h2, h3, h4, h5⟩ :=
    runLoopAux_spec attempt MAX_ITERATIONS p0 (by norm_num [MAX_ITERATIONS])
  have hlen := runLoopAux_length_all_fail attempt hfail MAX_ITERATIONS p0
  have hmem : last ∈ (runLoopAux attempt MAX_ITERATIONS p0).1 := by
    rw [h1]
    exact List.mem_append_right pre (List.mem_singleton.mpr rfl)
  obtain ⟨q, hq⟩ := runLoopAux_reports_are_attempts attempt MAX_ITERATIONS p0 last hmem
  have hwr0 : last.word_ratio.isSome = true := by rw [hq]; exact (hread q).1
  have hsw0 : last.source_words.isSome = true := by rw [hq]; exact (hread q).2.1
  have hew0 : last.epub_words.isSome = true := by rw [hq]; exact (hread q).2.2
  obtain ⟨wr, hwr⟩ := Option.isSome_iff_exists.mp hwr0
  obtain ⟨sw, hsw⟩ := Option.isSome_iff_exists.mp hsw0
  obtain ⟨ew, hew⟩ := Option.isSome_iff_exists.mp hew0
  refine ⟨hlen, last, ?_, h4, ?_⟩
  · show (runLoopAux attempt MAX_ITERATIONS p0).1.getLast? = some last
    rw [h1, List.getLast?_concat]
  · show finalQualityReport (runLoopAux attempt MAX_ITERATIONS p0).2.1 = _
    rw [h4]
    simp [finalQualityReport, hwr, hsw, hew]

/-- C7 witness: a run whose first attempt scores 0.85 and whose later
attempts score 0.3 still surfaces the last report. -/
theorem C7_exhausted_surfaces_last_witness :
    (process_loop decliningAttempt defaultParams).reports.length = MAX_ITERATIONS ∧
    (process_loop decliningAttempt defaultParams).best_result =
      (process_loop decliningAttempt defaultParams).reports.getLast? := by
  have h := C7_exhausted_surfaces_last decliningAttempt defaultParams
    (fun q => by unfold decliningAttempt; split <;> rfl)
    (fun q => by unfold decliningAttempt; split <;> exact ⟨rfl, rfl, rfl⟩)
  obtain ⟨hlen, last, hl, hb, _⟩ := h
  exact ⟨hlen, by rw [hb, hl]⟩

/-- C4: for a readable publication the word ratio is the capped quotient
when the source has words, hence lies in the unit interval; for an empty
source it degenerates to 1 or 0.5; the report passes iff the ratio
reaches 0.90; and a failing report is classified severe below 0.5,
moderate below 0.9, and minor otherwise. -/
theorem C4_validator_readable (wc : ℕ) (sa : Analysis) (c i : ℕ) :
    (0 < sa.total_words →
      rawRatioOfWords wc sa.total_words =
        min ((wc : ℚ) / (sa.total_words : ℚ)) 1.0 ∧
      0 ≤ rawRatioOfWords wc sa.total_words ∧
      rawRatioOfWords wc sa.total_words ≤ 1) ∧
    (sa.total_words = 0 →
      rawRatioOfWords wc sa.total_words = (if wc = 0 then (1.0 : ℚ) else 0.5)) ∧
    ((validate_epub (some wc) sa c i).passed = true ↔
      (0.90 : ℚ) ≤ rawRatioOfWords wc sa.total_words) ∧
    ((validate_epub (some wc) sa c i).passed = false →
      (validate_epub (some wc) sa c i).failure_mode =
        some (if rawRatioOfWords wc sa.total_words < 0.5 then "severe_word_loss".data
          else if rawRatioOfWords wc sa.total_words < 0.9 then "moderate_word_loss".data
          else "minor".data)) := by
  refine ⟨?_, ?_, ?_, ?_⟩
  · intro hsw
    unfold rawRatioOfWords
    rw [if_pos hsw]
    refine ⟨rfl, le_min (by positivity) (by norm_num), ?_⟩
    calc min ((wc : ℚ) / (sa.total_words : ℚ)) 1.0 ≤ 1.0 := min_le_right _ _
      _ ≤ 1 := by norm_num
  · intro hsw
    unfold rawRatioOfWords
    rw [if_neg (by omega)]
  · show (decide ((0.90 : ℚ) ≤ rawRatioOfWords wc sa.total_words) = true) ↔ _
    exact decide_eq_true_iff
  · intro hfail
    have hfail' : decide ((0.90 : ℚ) ≤ rawRatioOfWords wc sa.total_words) = false :=
      hfail
    show (if (decide ((0.90 : ℚ) ≤ rawRatioOfWords wc sa.total_words) : Bool)
      then none else some _) = _
    rw [hfail']
    simp

/-- C4 witness: at 850 rendered words against 1000 source words the ratio
is 0.85, the report fails and is classified moderate_word_loss. -/
theorem C4_validator_readable_witness :
    (validate_epub (some 850) words1000Analysis 5 2).passed = false ∧
    (validate_epub (some 850) words1000Analysis 5 2).failure_mode =
      some "moderate_word_loss".data := by
  have h := C4_validator_readable 850 words1000Analysis 5 2
  have hratio : rawRatioOfWords 850 words1000Analysis.total_words = 17/20 := by
    have h1000 : words1000Analysis.total_words = 1000 := rfl
    rw [h1000]
    unfold rawRatioOfWords
    rw [if_pos (by norm_num)]
    norm_num
  have hpassed : (validate_epub (some 850) words1000Analysis 5 2).passed = false := by
    have hiff := h.2.2.1
    have hnot : ¬ ((0.90 : ℚ) ≤ rawRatioOfWords 850 words1000Analysis.total_words) := by
      rw [hratio]
      norm_num
    rcases Bool.eq_false_or_eq_true (validate_epub (some 850) words1000Analysis 5 2).passed
      with hb | hb
    · exact absurd (hiff.mp hb) hnot
    · exact hb
  refine ⟨hpassed, ?_⟩
  have hmode := h.2.2.2 hpassed
  rw [hmode, hratio]
  rw [if_neg (by norm_num), if_pos (by norm_num)]

/-- C1 (amended): on a well-formed analysis the chapter page lists
produced by structure_chapters concatenate, in order, to exactly the page
indices 0 to total_pages - 1 (hence the cover is exact, gap free and
overlap free and each chapter is a contiguous span), provided the
qualifying outline boundaries are listed in ascending page order (which
the claim wrongly takes for granted: the source does not sort them) and
chunk_size is at least 1. -/
theorem C1_partition (analysis : Analysis) (ocr : ℕ → Option (List Char))
    (params : Params) (hwf : analysis.wf)
    (hsorted : List.Chain' (fun x y => x.2 ≤ y.2) (tocBoundaries analysis.toc))
    (hcs : 1 ≤ params.chunk_size) :
    (structure_chapters analysis ocr params).flatMap (fun c => c.pages) =
      List.range analysis.pages.length := by
  unfold structure_chapters
  dsimp only
  rw [build_flatMap_pages]
  cases h1 : tier1Skeleton analysis with
  | some chs =>
    simp only [h1]
    exact tier1Skeleton_flat analysis hsorted chs h1
  | none =>
    cases h2 : tier2Skeleton analysis params with
    | some chs =>
      simp only [h1, h2]
      exact tier2Skeleton_flat analysis params hwf chs h2
    | none =>
      simp only [h1, h2]
      exact tier3_flat analysis params hcs

/-- C1 witness: the partition theorem evaluated on a concrete 3-page
document. -/
theorem C1_partition_witness :
    (structure_chapters tinyAnalysis noOcr defaultParams).flatMap
      (fun c => c.pages) = List.range tinyAnalysis.pages.length :=
  C1_partition tinyAnalysis noOcr defaultParams
    (by show pagesNumbered 0 tinyAnalysis.pages = true; decide)
    (by rw [show tocBoundaries tinyAnalysis.toc = [] from rfl]
        exact List.chain'_nil)
    (by decide)

/-- C2 (amended): tier selection is deterministic and total, but with the
activation conditions the source actually implements: the outline tier is
used iff the outline has at least 2 entries of any nesting level and the
qualifying (level at most 2) boundaries produce at least one non-empty
span; the heading tier is used iff the outline tier is not used and at
least 2 raw heading candidates (before per-page deduplication) exist; the
fixed-chunk tier is used in every other case. -/
theorem C2_tier_selection (a : Analysis) (p : Params) (hwf : a.wf) :
    (selectedTier a p = Tier.toc ↔
      (2 ≤ a.toc.length ∧
        tocSpans (a.pages.length : ℤ) (tocBoundaries a.toc) ≠ [])) ∧
    (selectedTier a p = Tier.headings ↔
      (¬ (2 ≤ a.toc.length ∧
          tocSpans (a.pages.length : ℤ) (tocBoundaries a.toc) ≠ []) ∧
        2 ≤ (detectedHeadings a p).length)) ∧
    (selectedTier a p = Tier.chunks ↔
      (¬ (2 ≤ a.toc.length ∧
          tocSpans (a.pages.length : ℤ) (tocBoundaries a.toc) ≠ []) ∧
        ¬ 2 ≤ (detectedHeadings a p).length)) := by
  have h1 := tier1Skeleton_isSome_iff a
  have h2 := tier2Skeleton_isSome_iff a p hwf
  unfold selectedTier
  cases ht1 : tier1Skeleton a with
  | some chs =>
    rw [ht1] at h1
    simp only [Option.isSome_some, true_iff] at h1
    simp [h1]
  | none =>
    rw [ht1] at h1
    simp only [Option.isSome_none, Bool.false_eq_true, false_iff] at h1
    cases ht2 : tier2Skeleton a p with
    | some chs2 =>
      rw [ht2] at h2
      simp only [Option.isSome_some, true_iff] at h2
      simp [h1, h2]
    | none =>
      rw [ht2] at h2
      simp only [Option.isSome_none, Bool.false_eq_true, false_iff] at h2
      simp [h1, h2]

/-- C2 witness: the tier characterisation evaluated on a concrete
document with no outline and no heading candidates, which selects the
fixed-chunk tier. -/
theorem C2_tier_selection_witness :
    selectedTier tinyAnalysis defaultParams = Tier.chunks :=
  ((C2_tier_selection tinyAnalysis defaultParams
      (by show pagesNumbered 0 tinyAnalysis.pages = true; decide)).2.2).mpr
    ⟨by decide, by decide⟩

/-- C2 counterexample: a document whose outline has two entries of which
only one qualifies (nesting level at most 2) still selects the outline
tier, contradicting the claim that tier 1 is used iff at least 2
qualifying outline entries exist. -/
theorem C2_counterexample :
    selectedTier oneQualifyingTocAnalysis defaultParams = Tier.toc ∧
    (oneQualifyingTocAnalysis.toc.filter (fun e => decide (e.level ≤ 2))).length = 1 := by
  decide

end PdfEpub
